import Mathlib

/-!
Verification development for the habit-tracker record store and streak engine
(`src/tracker.py`).  The in-memory pandas DataFrame of the tracking log is
embedded as a list of typed rows; calendar dates are modelled as integer day
ordinals (ISO-8601 date strings are order-isomorphic to day numbers, and
`str(date.today() - timedelta(days=k))` corresponds to `today - k`).  Each
definition mirrors a function or inline mutation block of the source.
-/

namespace Tracker

/-- One row of the `TrackingLog` worksheet, after loading: the canonical
six-column schema `(Date, Habit, Status, Is_Active, Daily_Reflection, Mood)`. -/
structure Row where
  date : Int
  habit : String
  status : Bool
  is_active : Bool
  daily_reflection : String
  mood : Int
deriving DecidableEq, Repr

/-- The in-memory log: the DataFrame as a list of rows in sheet order. -/
abbrev Log := List Row

/-- `UNSELECTED_MOOD_KEY = 0` from the source. -/
def UNSELECTED_MOOD_KEY : Int := 0

/-- Accumulator loop of `pandas.Series.unique`: keep the first occurrence of
each value, preserving encounter order. -/
def uniqAux {α : Type} [DecidableEq α] (acc : List α) : List α → List α
  | [] => acc
  | a :: l => if a ∈ acc then uniqAux acc l else uniqAux (acc ++ [a]) l

/-- `pandas.Series.unique`: unique values in first-seen order. -/
def uniqueFirst {α : Type} [DecidableEq α] (l : List α) : List α := uniqAux [] l

/-- `get_active_habits(df)`: `list(df[df['Is_Active'] == True]["Habit"].unique())`,
with `[]` on an empty frame. -/
def get_active_habits (df : Log) : List String :=
  if df = [] then []
  else uniqueFirst ((df.filter fun r => r.is_active == true).map fun r => r.habit)

/-- `get_all_habits(df)`: `list(df["Habit"].unique())`, with `[]` on an empty
frame. -/
def get_all_habits (df : Log) : List String :=
  if df = [] then [] else uniqueFirst (df.map fun r => r.habit)

/-- `df[(df["Habit"] == habit_name) & (df["Status"] == True)]["Date"].unique()`
from `calculate_streak`. -/
def completedDates (df : Log) (habit_name : String) : List Int :=
  uniqueFirst ((df.filter fun r => r.habit == habit_name && r.status == true).map
    fun r => r.date)

/-- The `while str(check_date) in completed_dates` loop of `calculate_streak`,
made total with an explicit fuel bound on the number of iterations. -/
def streakWalk (cd : List Int) (check_date : Int) : Nat → Nat
  | 0 => 0
  | fuel + 1 => if check_date ∈ cd then streakWalk cd (check_date - 1) fuel + 1 else 0

/-- Starting day of the walk: `check_date = date.today()`, stepped back one day
when today is not among the completed dates. -/
def streakStart (cd : List Int) (today : Int) : Int :=
  if today ∈ cd then today else today - 1

/-- `calculate_streak(df, habit_name)`, with "today" passed explicitly.  The
fuel `cd.length` is shown sufficient in the termination theorem below. -/
def calculate_streak (df : Log) (habit_name : String) (today : Int) : Nat :=
  let cd := completedDates df habit_name
  if cd.length = 0 then 0
  else streakWalk cd (streakStart cd today) cd.length

/-- `BADGE_TIERS` from the source, as an association list in written order. -/
def BADGE_TIERS : List (Nat × String) :=
  [(1, "🌟 New Start"), (7, "🏆 Bronze Star"), (30, "🥈 Silver Champion"),
   (90, "🥇 Gold Titan")]

/-- `sorted(BADGE_TIERS.keys(), reverse=True)`, paired with their tier names
(the keys are distinct, so sorting pairs by key is equivalent). -/
def sortedTiersDesc : List (Nat × String) :=
  List.insertionSort (fun a b => b.1 ≤ a.1) BADGE_TIERS

/-- The `for threshold in ...: if streak >= threshold: badge = ...; break` loop
of `get_badge`, with `badge = ""` when no threshold matches. -/
def pickBadge (streak : Nat) : List (Nat × String) → String
  | [] => ""
  | (threshold, name) :: rest => if threshold ≤ streak then name else pickBadge streak rest

/-- `get_badge(streak)`. -/
def get_badge (streak : Nat) : String :=
  if streak = 0 then "❄️ No Streak"
  else pickBadge streak sortedTiersDesc ++ " (" ++ toString streak ++ " Days)"

/-- The `new_entry` row built by the checkbox upsert block: fresh row with
`Is_Active=True`, empty reflection and unselected mood. -/
def newStatusRow (d : Int) (habit : String) (clicked : Bool) : Row :=
  { date := d, habit := habit, status := clicked, is_active := true,
    daily_reflection := "", mood := UNSELECTED_MOOD_KEY }

/-- The checkbox upsert block (daily-log section): if no row exists for
`(date, habit)` the fresh `new_entry` row is appended; otherwise `Status` is
assigned on the matching rows. -/
def upsert_status (df : Log) (d : Int) (habit : String) (clicked : Bool) : Log :=
  if df.filter (fun r => r.date == d && r.habit == habit) = [] then
    df ++ [newStatusRow d habit clicked]
  else
    df.map fun r =>
      if r.date == d && r.habit == habit then { r with status := clicked } else r

/-- The `new_entry` sentinel row built by the mood update block: inactive
`Mood_Entry` placeholder holding the mood for a date with no habit rows. -/
def moodSentinelRow (d : Int) (v : Int) : Row :=
  { date := d, habit := "Mood_Entry", status := false, is_active := false,
    daily_reflection := "", mood := v }

/-- The mood update block: `df.loc[df["Date"] == str_date, 'Mood'] = v`, then
the `Mood_Entry` sentinel row is appended when no row exists for the date. -/
def setMood (df : Log) (d : Int) (v : Int) : Log :=
  let df1 := df.map fun r => if r.date == d then { r with mood := v } else r
  if (df1.any fun r => r.date == d) = false then df1 ++ [moodSentinelRow d v]
  else df1

/-- The reflection update block: the reflection is assigned onto every row of
the date when `reflection_mask.any()`; otherwise only a warning is shown and
the log is left unchanged (nothing is saved). -/
def setReflection (df : Log) (d : Int) (v : String) : Log :=
  if (df.any fun r => r.date == d) = true then
    df.map fun r => if r.date == d then { r with daily_reflection := v } else r
  else df

/-- The `new_row` built by the Add Habit handler: today's row for the new
habit, not yet completed, active, empty reflection, unselected mood. -/
def newHabitRow (today : Int) (new_habit : String) : Row :=
  { date := today, habit := new_habit, status := false, is_active := true,
    daily_reflection := "", mood := UNSELECTED_MOOD_KEY }

/-- The Add Habit button handler: appends today's row and emits the sidebar
success message when the name is non-empty and not among all known habit
names; otherwise nothing happens and no message is emitted.  The second
component is the message shown to the user, if any. -/
def addHabitHandler (df : Log) (new_habit : String) (today : Int) : Log × Option String :=
  if new_habit ≠ "" ∧ new_habit ∉ get_all_habits df then
    (df ++ [newHabitRow today new_habit], some ("Added: " ++ new_habit))
  else (df, none)

/-! ### Properties of `uniqueFirst` (the `pandas.Series.unique` model) -/

/-- Loop invariant of `uniqAux`: processing the suffix `t` of `l = s ++ t`
with an accumulator holding exactly the values seen in `s`, in order of first
occurrence, yields a list that is ordered by first occurrence in `l` and whose
members are those of `acc` and `t`. -/
theorem uniqAux_invariant {α : Type} [DecidableEq α] (l : List α) :
    ∀ (t s acc : List α), l = s ++ t → (∀ y, y ∈ s ↔ y ∈ acc) →
      acc.Pairwise (fun x y => l.indexOf x < l.indexOf y) →
      (uniqAux acc t).Pairwise (fun x y => l.indexOf x < l.indexOf y) ∧
      (∀ y, y ∈ uniqAux acc t ↔ y ∈ acc ∨ y ∈ t) := by
  intro t
  induction t with
  | nil =>
    intro s acc _ _ hpw
    exact ⟨hpw, fun y => by simp [uniqAux]⟩
  | cons a t ih =>
    intro s acc hl hmem hpw
    by_cases ha : a ∈ acc
    · have hstep : uniqAux acc (a :: t) = uniqAux acc t := by
        simp only [uniqAux, if_pos ha]
      rw [hstep]
      have hmem2 : ∀ y, y ∈ s ++ [a] ↔ y ∈ acc := by
        intro y
        simp only [List.mem_append, List.mem_singleton]
        constructor
        · rintro (h | rfl)
          · exact (hmem y).1 h
          · exact ha
        · intro h
          exact Or.inl ((hmem y).2 h)
      obtain ⟨hpw3, hmem3⟩ := ih (s ++ [a]) acc (by rw [hl, List.append_assoc]; rfl) hmem2 hpw
      refine ⟨hpw3, fun y => ?_⟩
      rw [hmem3 y]
      constructor
      · rintro (h | h)
        · exact Or.inl h
        · exact Or.inr (List.mem_cons_of_mem _ h)
      · rintro (h | h)
        · exact Or.inl h
        · rcases List.mem_cons.mp h with rfl | h
          · exact Or.inl ha
          · exact Or.inr h
    · have hstep : uniqAux acc (a :: t) = uniqAux (acc ++ [a]) t := by
        simp only [uniqAux, if_neg ha]
      rw [hstep]
      have hanots : a ∉ s := fun h => ha ((hmem a).1 h)
      have hpw2 : (acc ++ [a]).Pairwise (fun x y => l.indexOf x < l.indexOf y) := by
        rw [List.pairwise_append]
        refine ⟨hpw, List.pairwise_singleton _ _, ?_⟩
        intro x hx y hy
        rcases List.mem_singleton.mp hy with rfl
        have hxs : x ∈ s := (hmem x).2 hx
        have h1 : l.indexOf x < s.length := by
          rw [hl, List.indexOf_append_of_mem hxs]
          exact List.indexOf_lt_length.2 hxs
        have h2 : s.length ≤ l.indexOf y := by
          rw [hl, List.indexOf_append_of_not_mem hanots]
          exact Nat.le_add_right _ _
        omega
      have hmem2 : ∀ y, y ∈ s ++ [a] ↔ y ∈ acc ++ [a] := by
        intro y
        simp only [List.mem_append, List.mem_singleton]
        exact or_congr_left (hmem y)
      obtain ⟨hpw3, hmem3⟩ :=
        ih (s ++ [a]) (acc ++ [a]) (by rw [hl, List.append_assoc]; rfl) hmem2 hpw2
      refine ⟨hpw3, fun y => ?_⟩
      rw [hmem3 y]
      simp only [List.mem_append, List.mem_singleton, List.mem_cons]
      tauto

/-- `uniqueFirst l` is sorted by position of first occurrence in `l`. -/
theorem uniqueFirst_pairwise {α : Type} [DecidableEq α] (l : List α) :
    (uniqueFirst l).Pairwise (fun x y => l.indexOf x < l.indexOf y) :=
  (uniqAux_invariant l l [] [] rfl (by simp) (List.Pairwise.nil)).1

/-- Membership in `uniqueFirst l` is membership in `l`. -/
theorem mem_uniqueFirst {α : Type} [DecidableEq α] (l : List α) (a : α) :
    a ∈ uniqueFirst l ↔ a ∈ l := by
  rw [uniqueFirst, (uniqAux_invariant l l [] [] rfl (by simp) (List.Pairwise.nil)).2 a]
  simp

/-- `uniqueFirst l` holds no duplicates. -/
theorem uniqueFirst_nodup {α : Type} [DecidableEq α] (l : List α) :
    (uniqueFirst l).Nodup :=
  (uniqueFirst_pairwise l).imp fun h => by
    rintro rfl
    exact lt_irrefl _ h

/-! ### Properties of the streak walk -/

/-- The walk never counts more iterations than it has fuel. -/
theorem streakWalk_le_fuel (cd : List Int) :
    ∀ (fuel : Nat) (check_date : Int), streakWalk cd check_date fuel ≤ fuel := by
  intro fuel
  induction fuel with
  | zero => intro c; simp [streakWalk]
  | succ n ih =>
    intro c
    simp only [streakWalk]
    split
    · have := ih (c - 1)
      omega
    · omega

/-- Every day visited successfully by the walk is a completed date. -/
theorem streakWalk_mem (cd : List Int) :
    ∀ (fuel : Nat) (check_date : Int) (i : Nat),
      i < streakWalk cd check_date fuel → check_date - (i : Int) ∈ cd := by
  intro fuel
  induction fuel with
  | zero => intro c i h; simp [streakWalk] at h
  | succ n ih =>
    intro c i h
    simp only [streakWalk] at h
    by_cases hc : c ∈ cd
    · rw [if_pos hc] at h
      match i with
      | 0 => simpa using hc
      | j + 1 =>
        have hj := ih (c - 1) j (by omega)
        have : c - ((j : Int) + 1) = c - 1 - (j : Int) := by ring
        rw [show ((j + 1 : Nat) : Int) = (j : Int) + 1 by push_cast; ring, this]
        exact hj
    · rw [if_neg hc] at h
      omega

/-- When the walk stops before exhausting its fuel, the day after the counted
run is a genuine gap. -/
theorem streakWalk_stops (cd : List Int) :
    ∀ (fuel : Nat) (check_date : Int), streakWalk cd check_date fuel < fuel →
      check_date - (streakWalk cd check_date fuel : Int) ∉ cd := by
  intro fuel
  induction fuel with
  | zero => intro c h; omega
  | succ n ih =>
    intro c h
    simp only [streakWalk] at h ⊢
    by_cases hc : c ∈ cd
    · rw [if_pos hc] at h ⊢
      have hlt : streakWalk cd (c - 1) n < n := by omega
      have := ih (c - 1) hlt
      have harith : c - ((streakWalk cd (c - 1) n + 1 : Nat) : Int) =
          c - 1 - (streakWalk cd (c - 1) n : Int) := by push_cast; ring
      rw [harith]
      exact this
    · rw [if_neg hc]
      simpa using hc

/-- Unfolding a guaranteed-successful prefix of the walk. -/
theorem streakWalk_add (cd : List Int) :
    ∀ (k m : Nat) (check_date : Int), (∀ i : Nat, i < k → check_date - (i : Int) ∈ cd) →
      streakWalk cd check_date (k + m) = k + streakWalk cd (check_date - (k : Int)) m := by
  intro k
  induction k with
  | zero =>
    intro m c _
    simp
  | succ j ih =>
    intro m c hmem
    have hc : c ∈ cd := by simpa using hmem 0 (by omega)
    have hrec : ∀ i : Nat, i < j → (c - 1) - (i : Int) ∈ cd := by
      intro i hi
      have := hmem (i + 1) (by omega)
      have harith : c - ((i + 1 : Nat) : Int) = c - 1 - (i : Int) := by push_cast; ring
      rwa [harith] at this
    have hstep : j + 1 + m = (j + m) + 1 := by omega
    rw [hstep]
    simp only [streakWalk, if_pos hc]
    rw [ih m (c - 1) hrec]
    have harith : c - 1 - (j : Int) = c - ((j + 1 : Nat) : Int) := by push_cast; ring
    rw [harith]
    omega

/-- The walk over an empty completed-date set counts nothing. -/
theorem streakWalk_nil (check_date : Int) :
    ∀ fuel : Nat, streakWalk [] check_date fuel = 0 := by
  intro fuel
  cases fuel <;> simp [streakWalk]

/-- A walk starting at a gap counts nothing. -/
theorem streakWalk_of_not_mem (cd : List Int) (check_date : Int)
    (h : check_date ∉ cd) : ∀ fuel : Nat, streakWalk cd check_date fuel = 0 := by
  intro fuel
  cases fuel with
  | zero => rfl
  | succ n => simp [streakWalk, h]

/-- If the walk consumes all of its fuel `cd.length`, the next day is a gap:
otherwise the visited days would be `cd.length + 1` pairwise-distinct members
of `cd`. -/
theorem streakWalk_cap (cd : List Int) (check_date : Int)
    (h : streakWalk cd check_date cd.length = cd.length) :
    check_date - (cd.length : Int) ∉ cd := by
  intro hmem
  have hsub : ∀ x ∈ (List.range (cd.length + 1)).map (fun i : Nat => check_date - (i : Int)),
      x ∈ cd := by
    intro x hx
    simp only [List.mem_map, List.mem_range] at hx
    obtain ⟨i, hi, rfl⟩ := hx
    rcases Nat.lt_succ_iff_lt_or_eq.mp hi with hlt | rfl
    · exact streakWalk_mem cd cd.length check_date i (by omega)
    · exact hmem
  have hnd2 : ((List.range (cd.length + 1)).map
      (fun i : Nat => check_date - (i : Int))).Nodup := by
    refine List.Nodup.map ?_ (List.nodup_range _)
    intro i j hij
    simp only at hij
    omega
  have hlen := (List.subperm_of_subset hnd2 hsub).length_le
  simp only [List.length_map, List.length_range] at hlen
  omega

/-- Once the walk has stopped at a gap, adding fuel does not change its count. -/
theorem streakWalk_stable (cd : List Int) :
    ∀ (f1 f2 : Nat) (check_date : Int), streakWalk cd check_date f1 < f1 → f1 ≤ f2 →
      streakWalk cd check_date f2 = streakWalk cd check_date f1 := by
  intro f1
  induction f1 with
  | zero => intro f2 c h; omega
  | succ n ih =>
    intro f2 c h hle
    obtain ⟨m, rfl⟩ : ∃ m, f2 = m + 1 := ⟨f2 - 1, by omega⟩
    simp only [streakWalk] at h ⊢
    by_cases hc : c ∈ cd
    · simp only [if_pos hc] at h ⊢
      have := ih m (c - 1) (by omega) (by omega)
      omega
    · simp only [if_neg hc]

/-- Extensional characterization of `calculate_streak`: every day of the
counted run, walking back from the start day, is a completed date, and the day
just past the run is not. -/
theorem calculate_streak_char (df : Log) (habit_name : String) (today : Int) :
    (∀ i : Nat, i < calculate_streak df habit_name today →
        streakStart (completedDates df habit_name) today - (i : Int) ∈
          completedDates df habit_name) ∧
    streakStart (completedDates df habit_name) today -
        (calculate_streak df habit_name today : Int) ∉ completedDates df habit_name := by
  have hunfold : calculate_streak df habit_name today =
      if (completedDates df habit_name).length = 0 then 0
      else streakWalk (completedDates df habit_name)
        (streakStart (completedDates df habit_name) today)
        (completedDates df habit_name).length := rfl
  by_cases hnil : (completedDates df habit_name).length = 0
  · rw [hunfold, if_pos hnil]
    have : completedDates df habit_name = [] := List.length_eq_zero.mp hnil
    rw [this]
    exact ⟨fun i hi => absurd hi (by omega), List.not_mem_nil _⟩
  · rw [hunfold, if_neg hnil]
    refine ⟨fun i hi => streakWalk_mem _ _ _ i hi, ?_⟩
    have hle := streakWalk_le_fuel (completedDates df habit_name)
      (completedDates df habit_name).length
      (streakStart (completedDates df habit_name) today)
    rcases Nat.lt_or_ge (streakWalk (completedDates df habit_name)
        (streakStart (completedDates df habit_name) today)
        (completedDates df habit_name).length)
        (completedDates df habit_name).length with hlt | hge
    · exact streakWalk_stops _ _ _ hlt
    · have heq : streakWalk (completedDates df habit_name)
          (streakStart (completedDates df habit_name) today)
          (completedDates df habit_name).length = (completedDates df habit_name).length := by
        omega
      rw [heq]
      exact streakWalk_cap _ _ heq

/-- The gap characterization pins the streak value down uniquely. -/
theorem streak_char_unique (cd : List Int) (start : Int) (s k : Nat)
    (h1 : ∀ i : Nat, i < s → start - (i : Int) ∈ cd) (h2 : start - (s : Int) ∉ cd)
    (h3 : ∀ i : Nat, i < k → start - (i : Int) ∈ cd) (h4 : start - (k : Int) ∉ cd) :
    s = k := by
  by_contra hne
  rcases Nat.lt_or_ge s k with h | h
  · exact h2 (h3 s h)
  · exact h4 (h1 k (by omega))

/-- A log in which the habit "Run" was completed exactly on the three days
before `t` (and on no other day). -/
def threeDayLog (t : Int) : Log :=
  [{ date := t - 3, habit := "Run", status := true, is_active := true,
     daily_reflection := "", mood := 0 },
   { date := t - 2, habit := "Run", status := true, is_active := true,
     daily_reflection := "", mood := 0 },
   { date := t - 1, habit := "Run", status := true, is_active := true,
     daily_reflection := "", mood := 0 }]

/-- C1: the streak computation collects the completed dates of the habit,
starts at today or — when today is absent — at yesterday, and walks backward
counting consecutive completed days, stopping at the first gap; it returns 0
when the completed-date set is empty or both today and yesterday are absent,
and it returns 3 for a habit completed exactly on the three days before
today. -/
theorem C1_streak_follows_spec : ∀ (df : Log) (habit_name : String) (today : Int),
    ((∀ i : Nat, i < calculate_streak df habit_name today →
        streakStart (completedDates df habit_name) today - (i : Int) ∈
          completedDates df habit_name) ∧
      streakStart (completedDates df habit_name) today -
        (calculate_streak df habit_name today : Int) ∉ completedDates df habit_name) ∧
    (completedDates df habit_name = [] → calculate_streak df habit_name today = 0) ∧
    (today ∉ completedDates df habit_name → today - 1 ∉ completedDates df habit_name →
      calculate_streak df habit_name today = 0) ∧
    (∀ t : Int, calculate_streak (threeDayLog t) "Run" t = 3) := by
  intro df habit_name today
  obtain ⟨hrun, hgap⟩ := calculate_streak_char df habit_name today
  refine ⟨⟨hrun, hgap⟩, ?_, ?_, ?_⟩
  · intro hempty
    have : calculate_streak df habit_name today =
        if (completedDates df habit_name).length = 0 then 0
        else streakWalk (completedDates df habit_name)
          (streakStart (completedDates df habit_name) today)
          (completedDates df habit_name).length := rfl
    rw [this, hempty]
    simp
  · intro htoday hyest
    by_contra hne
    have hpos : 0 < calculate_streak df habit_name today := by omega
    have := hrun 0 hpos
    rw [streakStart, if_neg htoday] at this
    simp only [Nat.cast_zero, sub_zero] at this
    exact hyest this
  · intro t
    have hmem : ∀ x : Int, x ∈ completedDates (threeDayLog t) "Run" ↔
        (x = t - 3 ∨ x = t - 2 ∨ x = t - 1) := by
      intro x
      rw [completedDates, mem_uniqueFirst]
      simp [threeDayLog]
    have htoday : t ∉ completedDates (threeDayLog t) "Run" := by
      rw [hmem]
      omega
    have hstart : streakStart (completedDates (threeDayLog t) "Run") t = t - 1 := by
      rw [streakStart, if_neg htoday]
    obtain ⟨h1, h2⟩ := calculate_streak_char (threeDayLog t) "Run" t
    rw [hstart] at h1 h2
    refine streak_char_unique _ (t - 1) _ 3 h1 h2 ?_ ?_
    · intro i hi
      rw [hmem]
      match i, hi with
      | 0, _ => omega
      | 1, _ => omega
      | 2, _ => omega
    · rw [hmem]
      omega

/-- A log with a single completion of "Run" on day 0. -/
def oldRunLog : Log :=
  [{ date := 0, habit := "Run", status := true, is_active := true,
     daily_reflection := "", mood := 0 }]

/-- Witness for C1 at a concrete input: a habit completed only ten days ago
has streak 0 (both today and yesterday are absent from the completed set). -/
theorem C1_streak_follows_spec_witness : calculate_streak oldRunLog "Run" 10 = 0 :=
  (C1_streak_follows_spec oldRunLog "Run" 10).2.2.1 (by decide) (by decide)

/-- C10: the backward-walking loop of the streak computation terminates on
every finite log: any fuel bound of at least the number of distinct completed
dates yields the same count as the implementation, and the count never exceeds
that number of dates. -/
theorem C10_streak_walk_terminates : ∀ (df : Log) (habit_name : String) (today : Int)
    (fuel : Nat), (completedDates df habit_name).length ≤ fuel →
    streakWalk (completedDates df habit_name)
        (streakStart (completedDates df habit_name) today) fuel =
      calculate_streak df habit_name today ∧
    calculate_streak df habit_name today ≤ (completedDates df habit_name).length := by
  intro df habit_name today fuel hfuel
  have hunfold : calculate_streak df habit_name today =
      if (completedDates df habit_name).length = 0 then 0
      else streakWalk (completedDates df habit_name)
        (streakStart (completedDates df habit_name) today)
        (completedDates df habit_name).length := rfl
  by_cases hnil : (completedDates df habit_name).length = 0
  · rw [hunfold, if_pos hnil]
    have : completedDates df habit_name = [] := List.length_eq_zero.mp hnil
    rw [this]
    exact ⟨streakWalk_nil _ _, by omega⟩
  · rw [hunfold, if_neg hnil]
    have hle := streakWalk_le_fuel (completedDates df habit_name)
      (completedDates df habit_name).length
      (streakStart (completedDates df habit_name) today)
    refine ⟨?_, hle⟩
    rcases Nat.lt_or_ge (streakWalk (completedDates df habit_name)
        (streakStart (completedDates df habit_name) today)
        (completedDates df habit_name).length)
        (completedDates df habit_name).length with hlt | hge
    · exact streakWalk_stable _ _ _ _ hlt hfuel
    · have heq : streakWalk (completedDates df habit_name)
          (streakStart (completedDates df habit_name) today)
          (completedDates df habit_name).length = (completedDates df habit_name).length := by
        omega
      have hrun : ∀ i : Nat, i < (completedDates df habit_name).length →
          streakStart (completedDates df habit_name) today - (i : Int) ∈
            completedDates df habit_name := by
        intro i hi
        exact streakWalk_mem _ (completedDates df habit_name).length _ i (by omega)
      have hgapm := streakWalk_cap _ _ heq
      obtain ⟨m, rfl⟩ : ∃ m, fuel = (completedDates df habit_name).length + m :=
        ⟨fuel - (completedDates df habit_name).length, by omega⟩
      rw [streakWalk_add _ _ m _ hrun, streakWalk_of_not_mem _ _ hgapm m, heq]
      omega

/-- Witness for C10 at a concrete input: on the three-day log the walk with
generous fuel agrees with the implementation and the streak is bounded by the
number of completed dates. -/
theorem C10_streak_walk_terminates_witness :
    streakWalk (completedDates (threeDayLog 0) "Run")
        (streakStart (completedDates (threeDayLog 0) "Run") 0) 7 =
      calculate_streak (threeDayLog 0) "Run" 0 ∧
    calculate_streak (threeDayLog 0) "Run" 0 ≤ (completedDates (threeDayLog 0) "Run").length :=
  C10_streak_walk_terminates (threeDayLog 0) "Run" 0 7 (by decide)

/-! ### Badge assignment (C5) -/

/-- The format of every non-zero badge: `f"{badge} ({streak} Days)"`. -/
def badgeLabel (tier : String) (streak : Nat) : String :=
  tier ++ " (" ++ toString streak ++ " Days)"

/-- The descending threshold order actually iterated by `get_badge`. -/
theorem sortedTiersDesc_eval : sortedTiersDesc =
    [(90, "🥇 Gold Titan"), (30, "🥈 Silver Champion"), (7, "🏆 Bronze Star"),
     (1, "🌟 New Start")] := by
  rfl

/-- C5: `get_badge` returns the distinct no-streak label at 0 and otherwise
the tier of the highest threshold at or below the streak, formatted with the
streak count; for the configured thresholds 1, 7, 30, 90 the tiers are New
Start on 1..6, Bronze on 7..29, Silver on 30..89, and Gold from 90 on
(including arbitrarily large streaks). -/
theorem C5_badge_thresholds : ∀ streak : Nat,
    (streak = 0 → get_badge streak = "❄️ No Streak") ∧
    (1 ≤ streak → streak < 7 → get_badge streak = badgeLabel "🌟 New Start" streak) ∧
    (7 ≤ streak → streak < 30 → get_badge streak = badgeLabel "🏆 Bronze Star" streak) ∧
    (30 ≤ streak → streak < 90 → get_badge streak = badgeLabel "🥈 Silver Champion" streak) ∧
    (90 ≤ streak → get_badge streak = badgeLabel "🥇 Gold Titan" streak) := by
  intro s
  refine ⟨?_, ?_, ?_, ?_, ?_⟩
  · intro h
    subst h
    rfl
  · intro h1 h2
    rw [get_badge, if_neg (by omega), sortedTiersDesc_eval]
    simp only [pickBadge]
    rw [if_neg (by omega : ¬(90 ≤ s)), if_neg (by omega : ¬(30 ≤ s)),
      if_neg (by omega : ¬(7 ≤ s)), if_pos h1]
    rfl
  · intro h1 h2
    rw [get_badge, if_neg (by omega), sortedTiersDesc_eval]
    simp only [pickBadge]
    rw [if_neg (by omega : ¬(90 ≤ s)), if_neg (by omega : ¬(30 ≤ s)), if_pos h1]
    rfl
  · intro h1 h2
    rw [get_badge, if_neg (by omega), sortedTiersDesc_eval]
    simp only [pickBadge]
    rw [if_neg (by omega : ¬(90 ≤ s)), if_pos h1]
    rfl
  · intro h1
    rw [get_badge, if_neg (by omega), sortedTiersDesc_eval]
    simp only [pickBadge]
    rw [if_pos h1]
    rfl

/-- Witness for C5 at concrete streak values, including the cap at the
highest threshold. -/
theorem C5_badge_thresholds_witness :
    get_badge 0 = "❄️ No Streak" ∧
    get_badge 3 = badgeLabel "🌟 New Start" 3 ∧
    get_badge 29 = badgeLabel "🏆 Bronze Star" 29 ∧
    get_badge 90 = badgeLabel "🥇 Gold Titan" 90 ∧
    get_badge 1000 = badgeLabel "🥇 Gold Titan" 1000 :=
  ⟨(C5_badge_thresholds 0).1 rfl,
   (C5_badge_thresholds 3).2.1 (by omega) (by omega),
   (C5_badge_thresholds 29).2.2.1 (by omega) (by omega),
   (C5_badge_thresholds 90).2.2.2.2 (by omega),
   (C5_badge_thresholds 1000).2.2.2.2 (by omega)⟩

/-! ### The upsert invariants (C3) -/

/-- The store never holds two live rows with the same `(date, habit)` key. -/
abbrev KeyUnique (df : Log) : Prop :=
  df.Pairwise fun r1 r2 => ¬(r1.date = r2.date ∧ r1.habit = r2.habit)

/-- A sequence of checkbox upserts applied in order. -/
def applyUpserts (df : Log) (ops : List (Int × String × Bool)) : Log :=
  ops.foldl (fun acc op => upsert_status acc op.1 op.2.1 op.2.2) df

/-- The status-assignment branch of the upsert rewrites only `Status`, never
the key fields. -/
theorem upsert_map_preserves_key (d : Int) (habit : String) (clicked : Bool) (r : Row) :
    ((if r.date == d && r.habit == habit then { r with status := clicked } else r) : Row).date
        = r.date ∧
    ((if r.date == d && r.habit == habit then { r with status := clicked } else r) : Row).habit
        = r.habit := by
  split <;> exact ⟨rfl, rfl⟩

/-- A key-unique log keeps at most one row per key through an upsert. -/
theorem upsert_status_keyUnique (df : Log) (d : Int) (habit : String) (clicked : Bool)
    (h : KeyUnique df) : KeyUnique (upsert_status df d habit clicked) := by
  rw [upsert_status]
  split
  case isTrue hfil =>
    refine List.pairwise_append.mpr ⟨h, List.pairwise_singleton _ _, ?_⟩
    intro r hr r2 hr2
    rcases List.mem_singleton.mp hr2 with rfl
    rintro ⟨hd, hh⟩
    have := List.filter_eq_nil_iff.mp hfil r hr
    apply this
    simp [hd, hh, newStatusRow]
  case isFalse hfil =>
    rw [KeyUnique, List.pairwise_map]
    refine h.imp ?_
    intro a b hne hab
    obtain ⟨hd1, hh1⟩ := upsert_map_preserves_key d habit clicked a
    obtain ⟨hd2, hh2⟩ := upsert_map_preserves_key d habit clicked b
    rw [hd1, hd2, hh1, hh2] at hab
    exact hne hab

/-- In a key-unique log, at most one row matches any key predicate. -/
theorem filter_key_length_le_one (df : Log) (d : Int) (habit : String) (h : KeyUnique df) :
    (df.filter fun r => r.date == d && r.habit == habit).length ≤ 1 := by
  have hpw : (df.filter fun r => r.date == d && r.habit == habit).Pairwise
      (fun r1 r2 => ¬(r1.date = r2.date ∧ r1.habit = r2.habit)) :=
    List.Pairwise.filter _ h
  cases hcase : df.filter fun r => r.date == d && r.habit == habit with
  | nil => simp [hcase]
  | cons a tl =>
    cases tl with
    | nil => simp [hcase]
    | cons b t2 =>
      exfalso
      rw [hcase] at hpw
      have hab := (List.pairwise_cons.mp hpw).1 b (List.mem_cons_self _ _)
      have ha : a ∈ df.filter fun r => r.date == d && r.habit == habit := by
        rw [hcase]
        exact List.mem_cons_self _ _
      have hb : b ∈ df.filter fun r => r.date == d && r.habit == habit := by
        rw [hcase]
        exact List.mem_cons_of_mem _ (List.mem_cons_self _ _)
      have hpa := (List.mem_filter.mp ha).2
      have hpb := (List.mem_filter.mp hb).2
      simp only [Bool.and_eq_true, beq_iff_eq] at hpa hpb
      exact hab ⟨hpa.1.trans hpb.1.symm, hpa.2.trans hpb.2.symm⟩

/-- The upserted log holds exactly one row for the upserted key. -/
theorem upsert_status_count (df : Log) (d : Int) (habit : String) (clicked : Bool)
    (h : KeyUnique df) :
    ((upsert_status df d habit clicked).filter
      fun r => r.date == d && r.habit == habit).length = 1 := by
  rw [upsert_status]
  split
  case isTrue hfil =>
    rw [List.filter_append, hfil]
    simp [newStatusRow, List.filter]
  case isFalse hfil =>
    rw [List.filter_map]
    rw [List.length_map]
    have hcomp : ((fun r : Row => r.date == d && r.habit == habit) ∘
        (fun r : Row => if r.date == d && r.habit == habit
          then { r with status := clicked } else r)) =
        fun r : Row => r.date == d && r.habit == habit := by
      funext r
      simp only [Function.comp]
      split <;> rfl
    rw [hcomp]
    have hle := filter_key_length_le_one df d habit h
    have hne : (df.filter fun r => r.date == d && r.habit == habit).length ≠ 0 := by
      intro h0
      exact hfil (List.length_eq_zero.mp h0)
    omega

/-- Upserting the same `(date, habit, value)` twice equals upserting once. -/
theorem upsert_status_idem (df : Log) (d : Int) (habit : String) (clicked : Bool) :
    upsert_status (upsert_status df d habit clicked) d habit clicked =
      upsert_status df d habit clicked := by
  by_cases hfil : df.filter (fun r => r.date == d && r.habit == habit) = []
  · have hfirst : upsert_status df d habit clicked = df ++ [newStatusRow d habit clicked] := by
      rw [upsert_status, if_pos hfil]
    rw [hfirst, upsert_status]
    have houter : (df ++ [newStatusRow d habit clicked]).filter
        (fun r => r.date == d && r.habit == habit) = [newStatusRow d habit clicked] := by
      rw [List.filter_append, hfil]
      simp [newStatusRow]
    rw [if_neg (by rw [houter]; exact List.cons_ne_nil _ _)]
    rw [List.map_append]
    congr 1
    · have hid : ∀ r ∈ df, (if r.date == d && r.habit == habit
          then { r with status := clicked } else r) = id r := by
        intro r hr
        have := List.filter_eq_nil_iff.mp hfil r hr
        simp only [id]
        rw [if_neg this]
      rw [List.map_congr_left hid, List.map_id]
    · simp [newStatusRow, List.filter]
  · have hfirst : upsert_status df d habit clicked =
        df.map (fun r => if r.date == d && r.habit == habit
          then { r with status := clicked } else r) := by
      rw [upsert_status, if_neg hfil]
    rw [hfirst, upsert_status]
    have hcomp : ((fun r : Row => r.date == d && r.habit == habit) ∘
        (fun r : Row => if r.date == d && r.habit == habit
          then { r with status := clicked } else r)) =
        fun r : Row => r.date == d && r.habit == habit := by
      funext r
      simp only [Function.comp]
      split <;> rfl
    have houter : (df.map (fun r => if r.date == d && r.habit == habit
        then { r with status := clicked } else r)).filter
        (fun r => r.date == d && r.habit == habit) ≠ [] := by
      rw [List.filter_map, hcomp]
      intro hmap
      exact hfil (List.map_eq_nil_iff.mp hmap)
    rw [if_neg houter, List.map_map]
    refine List.map_congr_left ?_
    intro r _
    simp only [Function.comp]
    by_cases hc : (r.date == d && r.habit == habit) = true
    · rw [if_pos hc]
      have hc2 : ((({ r with status := clicked } : Row).date == d &&
          ({ r with status := clicked } : Row).habit == habit)) = true := hc
      rw [if_pos hc2]
    · rw [if_neg hc, if_neg hc]

/-- C3: the checkbox upsert is idempotent — upserting `(d, h, v)` twice equals
upserting once — a key-unique log holds exactly one row for the upserted key
afterward, and any sequence of upserts preserves key-uniqueness (never
duplicates a `(date, habit)` key). -/
theorem C3_upsert_idempotent_and_key_unique : ∀ (df : Log) (d : Int) (habit : String)
    (clicked : Bool) (ops : List (Int × String × Bool)),
    upsert_status (upsert_status df d habit clicked) d habit clicked =
      upsert_status df d habit clicked ∧
    (KeyUnique df → ((upsert_status df d habit clicked).filter
      fun r => r.date == d && r.habit == habit).length = 1) ∧
    (KeyUnique df → KeyUnique (applyUpserts df ops)) := by
  intro df d habit clicked ops
  refine ⟨upsert_status_idem df d habit clicked, upsert_status_count df d habit clicked, ?_⟩
  intro h
  induction ops generalizing df with
  | nil => exact h
  | cons op rest ih =>
    exact ih (upsert_status df op.1 op.2.1 op.2.2)
      (upsert_status_keyUnique df op.1 op.2.1 op.2.2 h)

/-- Witness for C3 at a concrete input: one row for the upserted key and a
key-unique store after a repeated upsert sequence starting from the one-row
log. -/
theorem C3_upsert_idempotent_and_key_unique_witness :
    ((upsert_status oldRunLog 0 "Run" true).filter
      fun r => r.date == 0 && r.habit == "Run").length = 1 ∧
    KeyUnique (applyUpserts oldRunLog [(0, "Gym", true), (0, "Gym", true)]) :=
  ⟨(C3_upsert_idempotent_and_key_unique oldRunLog 0 "Run" true []).2.1 (by decide),
   (C3_upsert_idempotent_and_key_unique oldRunLog 0 "Gym" true
      [(0, "Gym", true), (0, "Gym", true)]).2.2 (by decide)⟩

/-! ### Day-scoped field writes (C2, C4) -/

/-- The mood-broadcast map rewrites only `Mood`, never `Date`. -/
theorem setMood_map_date (d v : Int) (r : Row) :
    ((if r.date == d then { r with mood := v } else r) : Row).date = r.date := by
  split <;> rfl

/-- Rows produced by the mood-broadcast map carry the written mood whenever
they are dated `d`. -/
theorem mood_map_mem (df : Log) (d v : Int) :
    ∀ r ∈ df.map fun r0 => if r0.date == d then { r0 with mood := v } else r0,
      r.date = d → r.mood = v := by
  intro r hr hdate
  obtain ⟨r0, _, rfl⟩ := List.mem_map.mp hr
  by_cases hc : (r0.date == d) = true
  · rw [if_pos hc]
  · rw [if_neg hc] at hdate ⊢
    exact absurd hdate (by simpa using hc)

/-- Every row of the written date carries the written mood after the mood
update block. -/
theorem setMood_broadcast (df : Log) (d v : Int) :
    ∀ r ∈ setMood df d v, r.date = d → r.mood = v := by
  intro r hr hdate
  simp only [setMood] at hr
  split at hr
  · rcases List.mem_append.mp hr with h | h
    · exact mood_map_mem df d v r h hdate
    · rcases List.mem_singleton.mp h with rfl
      rfl
  · exact mood_map_mem df d v r hr hdate

/-- The sentinel check of the mood update block inspects the same dates as the
original frame. -/
theorem setMood_any (df : Log) (d v : Int) :
    ((df.map fun r => if r.date == d then { r with mood := v } else r).any
      fun r => r.date == d) = (df.any fun r => r.date == d) := by
  rw [List.any_map]
  congr 1
  funext r
  simp only [Function.comp]
  rw [setMood_map_date]

/-- When no row is dated `d`, the mood update appends exactly the sentinel. -/
theorem setMood_no_rows (df : Log) (d v : Int)
    (h : (df.any fun r => r.date == d) = false) :
    setMood df d v = df ++ [moodSentinelRow d v] := by
  simp only [setMood]
  rw [setMood_any df d v, h, if_pos rfl]
  have hid : ∀ r ∈ df, (if r.date == d then { r with mood := v } else r) = id r := by
    intro r hr
    have := List.any_eq_false.mp h r hr
    simp only [id]
    rw [if_neg this]
  rw [List.map_congr_left hid, List.map_id]

/-- When some row is dated `d`, the mood update only rewrites moods in place:
no row is created. -/
theorem setMood_has_rows (df : Log) (d v : Int)
    (h : (df.any fun r => r.date == d) = true) :
    setMood df d v = df.map fun r => if r.date == d then { r with mood := v } else r := by
  simp only [setMood]
  rw [setMood_any df d v, h]
  simp

/-- Every row of the written date carries the written reflection after the
reflection update block. -/
theorem setReflection_broadcast (df : Log) (d : Int) (s : String) :
    ∀ r ∈ setReflection df d s, r.date = d → r.daily_reflection = s := by
  intro r hr hdate
  rw [setReflection] at hr
  split at hr
  case isTrue hany =>
    obtain ⟨r0, _, rfl⟩ := List.mem_map.mp hr
    by_cases hc : (r0.date == d) = true
    · rw [if_pos hc]
    · rw [if_neg hc] at hdate ⊢
      exact absurd hdate (by simpa using hc)
  case isFalse hany =>
    exfalso
    exact hany (List.any_eq_true.mpr ⟨r, hr, by simp [hdate]⟩)

/-- When no row is dated `d`, the reflection update changes nothing at all. -/
theorem setReflection_no_rows (df : Log) (d : Int) (s : String)
    (h : (df.any fun r => r.date == d) = false) :
    setReflection df d s = df := by
  rw [setReflection, if_neg]
  intro habs
  rw [habs] at h
  simp at h

/-- C2 counterexample: after recording mood 5 for day 0 on an empty log and
then checking a habit box for day 0, the log holds two rows for day 0 with
moods 5 and 0 — the fresh habit row does not inherit the day's mood, so the
day-scoped identity invariant is broken. -/
theorem C2_mood_not_inherited_counterexample :
    upsert_status (setMood [] 0 5) 0 "Run" true =
      [moodSentinelRow 0 5, newStatusRow 0 "Run" true] ∧
    (moodSentinelRow 0 5).date = (newStatusRow 0 "Run" true).date ∧
    (moodSentinelRow 0 5).mood = 5 ∧ (newStatusRow 0 "Run" true).mood = 0 := by
  refine ⟨by decide, rfl, rfl, rfl⟩

/-- C2 as amended: the mood write broadcasts the value onto every row of the
date, and the reflection write onto every row of its date, but a habit row
freshly created by the checkbox upsert always starts with the unselected mood
(0) instead of inheriting the day's mood. -/
theorem C2_day_fields_broadcast_amended : ∀ (df : Log) (d v : Int) (s habit : String)
    (clicked : Bool),
    (∀ r ∈ setMood df d v, r.date = d → r.mood = v) ∧
    (∀ r ∈ setReflection df d s, r.date = d → r.daily_reflection = s) ∧
    (df.filter (fun r => r.date == d && r.habit == habit) = [] →
      upsert_status df d habit clicked = df ++ [newStatusRow d habit clicked] ∧
      (newStatusRow d habit clicked).mood = UNSELECTED_MOOD_KEY) := by
  intro df d v s habit clicked
  refine ⟨setMood_broadcast df d v, setReflection_broadcast df d s, ?_⟩
  intro hfil
  exact ⟨by rw [upsert_status, if_pos hfil], rfl⟩

/-- Witness for the amended C2 at a concrete input. -/
theorem C2_day_fields_broadcast_amended_witness :
    (∀ r ∈ setMood oldRunLog 0 5, r.date = 0 → r.mood = 5) ∧
    upsert_status oldRunLog 0 "Gym" true = oldRunLog ++ [newStatusRow 0 "Gym" true] :=
  ⟨(C2_day_fields_broadcast_amended oldRunLog 0 5 "" "Gym" true).1,
   ((C2_day_fields_broadcast_amended oldRunLog 0 5 "" "Gym" true).2.2 (by decide)).1⟩

/-- C4 counterexample: writing a reflection for a date with no rows leaves the
log empty — no sentinel row is synthesized for the reflection field (the
source only warns and saves nothing), contrary to the claim that both fields
behave alike. -/
theorem C4_reflection_no_sentinel_counterexample :
    setReflection [] 0 "note" = [] ∧ setMood [] 0 5 = [moodSentinelRow 0 5] := by
  exact ⟨by decide, by decide⟩

/-- C4 as amended: the mood write broadcasts onto every row of the date and
synthesizes exactly one inactive sentinel row when the date has no rows; the
reflection write broadcasts onto every row of the date but, when the date has
no rows, creates nothing and leaves the log unchanged. -/
theorem C4_set_day_field_amended : ∀ (df : Log) (d v : Int) (s : String),
    (∀ r ∈ setMood df d v, r.date = d → r.mood = v) ∧
    ((df.any fun r => r.date == d) = false →
      setMood df d v = df ++ [moodSentinelRow d v] ∧
      (moodSentinelRow d v).status = false ∧ (moodSentinelRow d v).is_active = false ∧
      (moodSentinelRow d v).habit = "Mood_Entry") ∧
    ((df.any fun r => r.date == d) = true → (setMood df d v).length = df.length) ∧
    (∀ r ∈ setReflection df d s, r.date = d → r.daily_reflection = s) ∧
    ((df.any fun r => r.date == d) = false → setReflection df d s = df) := by
  intro df d v s
  refine ⟨setMood_broadcast df d v, ?_, ?_, setReflection_broadcast df d s,
    setReflection_no_rows df d s⟩
  · intro h
    exact ⟨setMood_no_rows df d v h, rfl, rfl, rfl⟩
  · intro h
    rw [setMood_has_rows df d v h, List.length_map]

/-- Witness for the amended C4 at concrete inputs. -/
theorem C4_set_day_field_amended_witness :
    setMood [] 0 5 = [] ++ [moodSentinelRow 0 5] ∧
    (setMood oldRunLog 0 5).length = oldRunLog.length ∧
    setReflection [] 0 "note" = [] :=
  ⟨((C4_set_day_field_amended [] 0 5 "note").2.1 (by decide)).1,
   (C4_set_day_field_amended oldRunLog 0 5 "note").2.2.1 (by decide),
   (C4_set_day_field_amended [] 0 5 "note").2.2.2.2 (by decide)⟩

/-! ### Habit creation (C7) -/

/-- C7 counterexample: adding a habit whose name already exists leaves the log
unchanged but emits no message at all — the duplicate is silently ignored,
not reported to the user. -/
theorem C7_duplicate_add_silent_counterexample :
    addHabitHandler oldRunLog "Run" 5 = (oldRunLog, none) := by
  decide

/-- C7 as amended: a duplicate name (case-sensitive, against all known habit
names, active or archived) or an empty name is a silent no-op — the log is
unchanged and no message of any kind is emitted; a fresh name appends today's
row with `completed=false`, `is_active=true` and a success message. -/
theorem C7_add_habit_amended : ∀ (df : Log) (new_habit : String) (today : Int),
    (new_habit ∈ get_all_habits df → addHabitHandler df new_habit today = (df, none)) ∧
    (new_habit = "" → addHabitHandler df new_habit today = (df, none)) ∧
    (new_habit ≠ "" → new_habit ∉ get_all_habits df →
      addHabitHandler df new_habit today =
        (df ++ [newHabitRow today new_habit], some ("Added: " ++ new_habit)) ∧
      (newHabitRow today new_habit).status = false ∧
      (newHabitRow today new_habit).is_active = true) := by
  intro df new_habit today
  refine ⟨?_, ?_, ?_⟩
  · intro hmem
    rw [addHabitHandler, if_neg]
    rintro ⟨_, habs⟩
    exact habs hmem
  · intro hempty
    rw [addHabitHandler, if_neg]
    rintro ⟨habs, _⟩
    exact habs hempty
  · intro hne hmem
    exact ⟨by rw [addHabitHandler, if_pos ⟨hne, hmem⟩], rfl, rfl⟩

/-- Witness for the amended C7 at concrete inputs. -/
theorem C7_add_habit_amended_witness :
    addHabitHandler oldRunLog "Run" 7 = (oldRunLog, none) ∧
    addHabitHandler oldRunLog "Gym" 3 =
      (oldRunLog ++ [newHabitRow 3 "Gym"], some ("Added: " ++ "Gym")) :=
  ⟨(C7_add_habit_amended oldRunLog "Run" 7).1 (by decide),
   ((C7_add_habit_amended oldRunLog "Gym" 3).2.2 (by decide) (by decide)).1⟩

/-! ### Habit catalog (C8) -/

/-- C8 counterexample: a log holding only the inactive `Mood_Entry` sentinel
row.  `get_all_habits` reports the placeholder name instead of excluding
sentinel rows. -/
theorem C8_all_habits_includes_sentinel_counterexample :
    get_all_habits [moodSentinelRow 0 5] = ["Mood_Entry"] ∧
    get_active_habits [moodSentinelRow 0 5] = [] := by
  exact ⟨by decide, by decide⟩

/-- C8 as amended: `get_all_habits` returns the unique habit names of all
rows — including sentinel/placeholder rows — in first-seen order, and
`get_active_habits` returns the unique habit names of the rows whose
`is_active` flag is true, in first-seen order (sentinel rows drop out of the
latter only because they are created inactive). -/
theorem C8_habit_catalog_amended : ∀ df : Log,
    ((get_all_habits df).Nodup ∧
     (∀ h, h ∈ get_all_habits df ↔ h ∈ df.map fun r => r.habit) ∧
     (get_all_habits df).Pairwise fun a b =>
       (df.map fun r => r.habit).indexOf a < (df.map fun r => r.habit).indexOf b) ∧
    ((get_active_habits df).Nodup ∧
     (∀ h, h ∈ get_active_habits df ↔ ∃ r ∈ df, r.is_active = true ∧ r.habit = h) ∧
     (get_active_habits df).Pairwise fun a b =>
       ((df.filter fun r => r.is_active == true).map fun r => r.habit).indexOf a <
         ((df.filter fun r => r.is_active == true).map fun r => r.habit).indexOf b) := by
  intro df
  by_cases hdf : df = []
  · subst hdf
    simp [get_all_habits, get_active_habits]
  · constructor
    · rw [get_all_habits, if_neg hdf]
      refine ⟨uniqueFirst_nodup _, ?_, uniqueFirst_pairwise _⟩
      intro h
      rw [mem_uniqueFirst]
    · rw [get_active_habits, if_neg hdf]
      refine ⟨uniqueFirst_nodup _, ?_, uniqueFirst_pairwise _⟩
      intro h
      rw [mem_uniqueFirst]
      simp only [List.mem_map, List.mem_filter]
      constructor
      · rintro ⟨r, ⟨hr, hact⟩, rfl⟩
        exact ⟨r, hr, by simpa using hact, rfl⟩
      · rintro ⟨r, hr, hact, rfl⟩
        exact ⟨r, ⟨hr, by simpa using hact⟩, rfl⟩

/-! ### Loading and schema backfill (C6)

`load_data` works on the raw frame returned by the persistence port, before
any typing: it is embedded over untyped cell values. -/

/-- A raw spreadsheet cell value as surfaced by the persistence port. -/
inductive PyVal where
  | vStr : String → PyVal
  | vBool : Bool → PyVal
  | vInt : Int → PyVal
  | vNan : PyVal
deriving DecidableEq, Repr

/-- A raw frame: the column names and, per row, an association list from
column name to cell value. -/
structure RawTable where
  cols : List String
  rows : List (List (String × PyVal))
deriving DecidableEq, Repr

/-- Reading a cell of a row; a missing cell is `NaN`. -/
def getCell (row : List (String × PyVal)) (c : String) : PyVal :=
  (List.lookup c row).getD PyVal.vNan

/-- Assigning one cell of a row, creating the cell when absent. -/
def setCell (row : List (String × PyVal)) (c : String) (v : PyVal) :
    List (String × PyVal) :=
  if (List.lookup c row).isSome then
    row.map fun p => if p.1 = c then (c, v) else p
  else row ++ [(c, v)]

/-- Column assignment `df[c] = df[c].map(f)` over the whole frame; the column
is assumed present (reading it otherwise raises, which the caller models). -/
def mapColumn (t : RawTable) (c : String) (f : PyVal → PyVal) : RawTable :=
  { t with rows := t.rows.map fun row => setCell row c (f (getCell row c)) }

/-- Column creation `df[c] = v` for a column absent from the frame. -/
def addColumn (t : RawTable) (c : String) (v : PyVal) : RawTable :=
  { cols := t.cols ++ [c], rows := t.rows.map fun row => row ++ [(c, v)] }

/-- `str(...)` of a cell, as `astype(str)` produces it. -/
def pyStr (v : PyVal) : String :=
  match v with
  | PyVal.vStr s => s
  | PyVal.vBool b => if b then "True" else "False"
  | PyVal.vInt n => toString n
  | PyVal.vNan => "nan"

/-- `pd.to_numeric(cell, errors='coerce').fillna(UNSELECTED_MOOD_KEY).astype(int)`
on one cell: integers pass through, booleans coerce to 0/1, numeric strings
parse, and anything non-numeric becomes `NaN` and is filled with 0. -/
def toNumericFillZero (v : PyVal) : Int :=
  match v with
  | PyVal.vInt n => n
  | PyVal.vBool b => if b then 1 else 0
  | PyVal.vStr s => (s.toInt?).getD 0
  | PyVal.vNan => 0

/-- `REQUIRED_COLUMNS` from the source. -/
def REQUIRED_COLUMNS : List String :=
  ["Date", "Habit", "Status", "Is_Active", "Daily_Reflection", "Mood"]

/-- The empty but schema-complete frame `pd.DataFrame(columns=REQUIRED_COLUMNS)`
returned from the `except` branch. -/
def emptyTable : RawTable := { cols := REQUIRED_COLUMNS, rows := [] }

/-- One step of the backfill loop
`for col in REQUIRED_COLUMNS: if col not in df.columns: df[col] = ''`. -/
def backfillStep (acc : RawTable) (c : String) : RawTable :=
  if c ∈ acc.cols then acc else addColumn acc c (PyVal.vStr "")

/-- The body of the `try` block of `load_data`: `none` models the `KeyError`
raised by reading a column absent from the frame. -/
def load_dataBody (t : RawTable) : Option RawTable :=
  if "Date" ∉ t.cols then none
  else
    let t1 := mapColumn t "Date" fun v => PyVal.vStr (pyStr v)
    if "Mood" ∉ t1.cols then none
    else
      let t2 := mapColumn t1 "Mood" fun v => PyVal.vInt (toNumericFillZero v)
      some (REQUIRED_COLUMNS.foldl backfillStep t2)

/-- `load_data()`: the argument is the persistence port's result (`none` when
`conn.read` itself raises); every exception inside the `try` block falls back
to the empty schema-complete frame. -/
def load_data (input : Option RawTable) : RawTable :=
  match input with
  | none => emptyTable
  | some t => (load_dataBody t).getD emptyTable

/-- A well-formed raw frame: every cell of every row belongs to a declared
column. -/
abbrev RawTable.WF (t : RawTable) : Prop :=
  ∀ row ∈ t.rows, ∀ p ∈ row, p.1 ∈ t.cols

/-- A persisted frame from an old schema lacking the `Mood` column, holding
one live row. -/
def moodlessTable : RawTable :=
  { cols := ["Date", "Habit", "Status", "Is_Active", "Daily_Reflection"],
    rows := [[("Date", PyVal.vStr "2024-01-01"), ("Habit", PyVal.vStr "Run"),
              ("Status", PyVal.vBool true), ("Is_Active", PyVal.vBool true),
              ("Daily_Reflection", PyVal.vStr "")]] }

/-- A persisted frame from an old schema lacking the `Is_Active` column,
holding one live row. -/
def inactivelessTable : RawTable :=
  { cols := ["Date", "Habit", "Status", "Daily_Reflection", "Mood"],
    rows := [[("Date", PyVal.vStr "2024-01-01"), ("Habit", PyVal.vStr "Run"),
              ("Status", PyVal.vBool true), ("Daily_Reflection", PyVal.vStr ""),
              ("Mood", PyVal.vInt 3)]] }

/-- Replacing the `c`-cell of a row keeps every other key unchanged. -/
theorem lookup_map_replace_other (c c2 : String) (v : PyVal) (hne : c2 ≠ c) :
    ∀ row : List (String × PyVal),
      List.lookup c2 (row.map fun p => if p.1 = c then (c, v) else p) =
        List.lookup c2 row := by
  intro row
  induction row with
  | nil => rfl
  | cons p rest ih =>
    obtain ⟨k, b⟩ := p
    rw [List.map_cons]
    by_cases hp : k = c
    · rw [if_pos hp]
      have h1 : (c2 == c) = false := beq_false_of_ne hne
      have h2 : (c2 == k) = false := beq_false_of_ne (hp ▸ hne)
      rw [List.lookup_cons, List.lookup_cons, h1, h2]
      exact ih
    · rw [if_neg hp]
      rw [List.lookup_cons, List.lookup_cons]
      by_cases hck : (c2 == k) = true
      · rw [hck]
      · have hf : (c2 == k) = false := by simpa using hck
        rw [hf]
        exact ih

/-- Replacing the `c`-cell of a row that has one yields that cell. -/
theorem lookup_map_replace_self (c : String) (v : PyVal) :
    ∀ row : List (String × PyVal), (List.lookup c row).isSome →
      List.lookup c (row.map fun p => if p.1 = c then (c, v) else p) = some v := by
  intro row
  induction row with
  | nil => intro h; simp at h
  | cons p rest ih =>
    intro hsome
    obtain ⟨k, b⟩ := p
    rw [List.map_cons]
    by_cases hp : k = c
    · subst hp
      rw [if_pos rfl]
      exact List.lookup_cons_self
    · rw [if_neg hp]
      have hck : (c == k) = false := beq_false_of_ne fun h => hp h.symm
      rw [List.lookup_cons] at hsome
      rw [List.lookup_cons]
      rw [hck] at hsome ⊢
      exact ih hsome

/-- `setCell` stores the written value under the written key. -/
theorem lookup_setCell_self (row : List (String × PyVal)) (c : String) (v : PyVal) :
    List.lookup c (setCell row c v) = some v := by
  rw [setCell]
  split
  case isTrue h => exact lookup_map_replace_self c v row h
  case isFalse h =>
    rw [List.lookup_append]
    rw [Option.not_isSome_iff_eq_none.mp h]
    simp

/-- `setCell` keeps every other key unchanged. -/
theorem lookup_setCell_other (row : List (String × PyVal)) (c c2 : String) (v : PyVal)
    (hne : c2 ≠ c) : List.lookup c2 (setCell row c v) = List.lookup c2 row := by
  rw [setCell]
  split
  · exact lookup_map_replace_other c c2 v hne row
  · rw [List.lookup_append]
    have h2 : List.lookup c2 [(c, v)] = none := by
      rw [List.lookup_cons, beq_false_of_ne hne]
      rfl
    rw [h2]
    cases List.lookup c2 row <;> rfl

/-- A key outside a well-formed row's key set has no cell. -/
theorem lookup_eq_none_of_not_mem (row : List (String × PyVal)) (c : String)
    (h : ∀ p ∈ row, p.1 ≠ c) : List.lookup c row = none := by
  rw [List.lookup_eq_none_iff]
  intro p hp
  simpa using fun habs => (h p hp) habs.symm

/-- The columns present after the backfill loop are the original columns plus
the required ones. -/
theorem backfill_cols : ∀ (cs : List String) (a : RawTable) (c : String),
    c ∈ (cs.foldl backfillStep a).cols ↔ c ∈ a.cols ∨ c ∈ cs := by
  intro cs
  induction cs with
  | nil =>
    intro a c
    simp
  | cons c0 rest ih =>
    intro a c
    rw [List.foldl_cons, ih]
    by_cases h0 : c0 ∈ a.cols
    · have hstep : backfillStep a c0 = a := by rw [backfillStep, if_pos h0]
      rw [hstep]
      simp only [List.mem_cons]
      constructor
      · rintro (h | h)
        · exact Or.inl h
        · exact Or.inr (Or.inr h)
      · rintro (h | rfl | h)
        · exact Or.inl h
        · exact Or.inl h0
        · exact Or.inr h
    · have hstep : backfillStep a c0 = addColumn a c0 (PyVal.vStr "") := by
        rw [backfillStep, if_neg h0]
      rw [hstep]
      simp only [addColumn, List.mem_append, List.mem_singleton, List.mem_cons]
      tauto

/-- Row-level effect of the backfill loop: a cell of a column that was
missing (and genuinely absent from the row) is filled with the empty string,
and every other cell is untouched. -/
theorem backfill_rows : ∀ (cs : List String) (a : RawTable),
    List.Forall₂ (fun r1 r2 => ∀ c : String,
        List.lookup c r2 =
          if c ∈ cs ∧ c ∉ a.cols ∧ List.lookup c r1 = none then some (PyVal.vStr "")
          else List.lookup c r1)
      a.rows (cs.foldl backfillStep a).rows := by
  intro cs
  induction cs with
  | nil =>
    intro a
    rw [List.foldl_nil]
    refine List.forall₂_same.mpr ?_
    intro r _ c
    rw [if_neg]
    rintro ⟨habs, _⟩
    exact (List.not_mem_nil c) habs
  | cons c0 rest ih =>
    intro a
    rw [List.foldl_cons]
    by_cases h0 : c0 ∈ a.cols
    · have hstep : backfillStep a c0 = a := by rw [backfillStep, if_pos h0]
      rw [hstep]
      refine (ih a).imp ?_
      intro r1 r2 hpt c
      rw [hpt c]
      by_cases hc : c ∈ rest ∧ c ∉ a.cols ∧ List.lookup c r1 = none
      · rw [if_pos hc, if_pos ⟨List.mem_cons_of_mem _ hc.1, hc.2⟩]
      · have hnot2 : ¬(c ∈ c0 :: rest ∧ c ∉ a.cols ∧ List.lookup c r1 = none) := by
          rintro ⟨hin, hnotin, hnone⟩
          rcases List.mem_cons.mp hin with rfl | hin2
          · exact hnotin h0
          · exact hc ⟨hin2, hnotin, hnone⟩
        rw [if_neg hc, if_neg hnot2]
    · have hstep : backfillStep a c0 = addColumn a c0 (PyVal.vStr "") := by
        rw [backfillStep, if_neg h0]
      rw [hstep]
      have hrec := ih (addColumn a c0 (PyVal.vStr ""))
      rw [show (addColumn a c0 (PyVal.vStr "")).rows =
        a.rows.map (fun row => row ++ [(c0, PyVal.vStr "")]) from rfl] at hrec
      rw [List.forall₂_map_left_iff] at hrec
      refine hrec.imp ?_
      intro r1 r2 hpt c
      have happ : List.lookup c (r1 ++ [(c0, PyVal.vStr "")]) =
          if c = c0 ∧ List.lookup c r1 = none then some (PyVal.vStr "")
          else List.lookup c r1 := by
        rw [List.lookup_append]
        by_cases hcc : c = c0
        · subst hcc
          cases hl : List.lookup c r1 with
          | none => rw [if_pos ⟨rfl, rfl⟩]; simp
          | some w => rw [if_neg (by rintro ⟨_, hn⟩; exact Option.noConfusion hn)]; simp
        · have hsing : List.lookup c [(c0, PyVal.vStr "")] = none := by
            rw [List.lookup_cons, beq_false_of_ne hcc]
            rfl
          rw [hsing, if_neg (by rintro ⟨h, _⟩; exact hcc h)]
          cases List.lookup c r1 <;> rfl
      by_cases hcc : c = c0
      · subst hcc
        have hincols : c ∈ (addColumn a c (PyVal.vStr "")).cols := by
          simp [addColumn]
        rw [hpt c, if_neg (by rintro ⟨_, hno, _⟩; exact hno hincols), happ]
        by_cases hl : List.lookup c r1 = none
        · rw [if_pos ⟨rfl, hl⟩, if_pos ⟨List.mem_cons_self _ _, h0, hl⟩]
        · rw [if_neg (by rintro ⟨_, hn⟩; exact hl hn),
            if_neg (by rintro ⟨_, _, hn⟩; exact hl hn)]
      · have hlr : List.lookup c (r1 ++ [(c0, PyVal.vStr "")]) = List.lookup c r1 := by
          rw [happ, if_neg (by rintro ⟨h, _⟩; exact hcc h)]
        rw [hpt c, hlr]
        have hcols : c ∈ (addColumn a c0 (PyVal.vStr "")).cols ↔ c ∈ a.cols := by
          simp [addColumn, hcc]
        have hmemc : c ∈ c0 :: rest ↔ c ∈ rest := by simp [hcc]
        by_cases hcond : c ∈ rest ∧ c ∉ a.cols ∧ List.lookup c r1 = none
        · rw [if_pos ⟨hcond.1, fun hx => hcond.2.1 (hcols.mp hx), hcond.2.2⟩,
            if_pos ⟨hmemc.mpr hcond.1, hcond.2.1, hcond.2.2⟩]
        · rw [if_neg (fun habs => hcond ⟨habs.1, fun hx => habs.2.1 (hcols.mpr hx), habs.2.2⟩),
            if_neg (fun habs => hcond ⟨hmemc.mp habs.1, habs.2.1, habs.2.2⟩)]

/-- Pointwise strengthening of a `Forall₂` that may use membership of the
left element. -/
theorem forall2_imp_left_mem {α β : Type} {R S : α → β → Prop} :
    ∀ {l1 : List α} {l2 : List β}, List.Forall₂ R l1 l2 →
      (∀ a ∈ l1, ∀ b, R a b → S a b) → List.Forall₂ S l1 l2 := by
  intro l1 l2 h
  induction h with
  | nil => intro _; exact List.Forall₂.nil
  | cons hab htail ih =>
    intro hmem
    exact List.Forall₂.cons (hmem _ (List.mem_cons_self _ _) _ hab)
      (ih fun a ha b hr => hmem a (List.mem_cons_of_mem _ ha) b hr)

/-- The `df["Date"] = df["Date"].astype(str)` per-row rewrite of `load_data`. -/
def dateFixRow (row : List (String × PyVal)) : List (String × PyVal) :=
  setCell row "Date" (PyVal.vStr (pyStr (getCell row "Date")))

/-- The Mood numeric-coercion per-row rewrite of `load_data`. -/
def moodFixRow (row : List (String × PyVal)) : List (String × PyVal) :=
  setCell row "Mood" (PyVal.vInt (toNumericFillZero (getCell row "Mood")))

/-- Column renames do not happen: per-column rewrites keep the column list. -/
theorem mapColumn_cols (t : RawTable) (c : String) (f : PyVal → PyVal) :
    (mapColumn t c f).cols = t.cols := rfl

/-- When both read columns are present the `try` body succeeds and ends in
the backfill loop. -/
theorem load_dataBody_eq_some (t : RawTable) (hd : "Date" ∈ t.cols)
    (hm : "Mood" ∈ t.cols) :
    load_dataBody t = some (REQUIRED_COLUMNS.foldl backfillStep
      (mapColumn (mapColumn t "Date" fun v => PyVal.vStr (pyStr v)) "Mood"
        fun v => PyVal.vInt (toNumericFillZero v))) := by
  simp only [load_dataBody]
  rw [if_neg (not_not_intro hd), mapColumn_cols, if_neg (not_not_intro hm)]

/-- When either read column is missing, the `KeyError` is caught and the
empty schema-complete frame is returned. -/
theorem load_data_some_fail (t : RawTable) (h : "Date" ∉ t.cols ∨ "Mood" ∉ t.cols) :
    load_data (some t) = emptyTable := by
  by_cases hd : "Date" ∈ t.cols
  · have hm : "Mood" ∉ t.cols := by tauto
    have hb : load_dataBody t = none := by
      simp only [load_dataBody]
      rw [if_neg (not_not_intro hd), mapColumn_cols, if_pos hm]
    simp [load_data, hb]
  · have hb : load_dataBody t = none := by
      simp only [load_dataBody]
      rw [if_pos hd]
    simp [load_data, hb]

/-- C6 counterexample: loading a one-row frame from an old schema lacking the
`Mood` column yields the *empty* frame (the `df['Mood']` read raises and the
row is dropped) instead of keeping the row with mood 0; and a frame lacking
`Is_Active` gets that column backfilled with the empty string, not with
`True`. -/
theorem C6_load_defaults_counterexample :
    load_data (some moodlessTable) = emptyTable ∧
    moodlessTable.rows.length = 1 ∧
    ((load_data (some inactivelessTable)).rows.map fun row => getCell row "Is_Active") =
      [PyVal.vStr ""] := by
  refine ⟨by decide, rfl, by decide⟩

/-- C6 as amended: `load_data` returns the empty schema-complete frame when
the read fails outright and also when the frame lacks the `Date` or `Mood`
column (dropping all rows rather than default-filling); when both are
present, every row is kept, its mood is coerced to an integer with
non-numeric values becoming unset/0, and any other required column that is
missing is synthesized holding the empty string — not `True` for `Is_Active`
and not 0 for anything. -/
theorem C6_load_degrades_amended : ∀ t : RawTable,
    load_data none = emptyTable ∧
    (emptyTable.cols = REQUIRED_COLUMNS ∧ emptyTable.rows = []) ∧
    (∀ input : Option RawTable, ∀ c ∈ REQUIRED_COLUMNS, c ∈ (load_data input).cols) ∧
    ("Date" ∉ t.cols ∨ "Mood" ∉ t.cols → load_data (some t) = emptyTable) ∧
    (∀ s : String, s.toInt? = none → toNumericFillZero (PyVal.vStr s) = 0) ∧
    ("Date" ∈ t.cols → "Mood" ∈ t.cols →
      (load_data (some t)).rows.length = t.rows.length) ∧
    ("Date" ∈ t.cols → "Mood" ∈ t.cols → t.WF →
      List.Forall₂ (fun r1 r2 =>
          getCell r2 "Mood" = PyVal.vInt (toNumericFillZero (getCell r1 "Mood")) ∧
          ∀ c ∈ REQUIRED_COLUMNS, c ∉ t.cols → getCell r2 c = PyVal.vStr "")
        t.rows (load_data (some t)).rows) := by
  intro t
  refine ⟨rfl, ⟨rfl, rfl⟩, ?_, load_data_some_fail t, ?_, ?_, ?_⟩
  · intro input c hc
    cases input with
    | none => exact hc
    | some t0 =>
      by_cases hd : "Date" ∈ t0.cols
      · by_cases hm : "Mood" ∈ t0.cols
        · simp only [load_data, load_dataBody_eq_some t0 hd hm, Option.getD_some]
          exact (backfill_cols _ _ c).mpr (Or.inr hc)
        · rw [load_data_some_fail t0 (Or.inr hm)]
          exact hc
      · rw [load_data_some_fail t0 (Or.inl hd)]
        exact hc
  · intro s hs
    simp [toNumericFillZero, hs]
  · intro hd hm
    simp only [load_data, load_dataBody_eq_some t hd hm, Option.getD_some]
    have h2 := (backfill_rows REQUIRED_COLUMNS
      (mapColumn (mapColumn t "Date" fun v => PyVal.vStr (pyStr v)) "Mood"
        fun v => PyVal.vInt (toNumericFillZero v))).length_eq
    have h3 : (mapColumn (mapColumn t "Date" fun v => PyVal.vStr (pyStr v)) "Mood"
        fun v => PyVal.vInt (toNumericFillZero v)).rows.length = t.rows.length := by
      simp [mapColumn]
    omega
  · intro hd hm hwf
    simp only [load_data, load_dataBody_eq_some t hd hm, Option.getD_some]
    have hback := backfill_rows REQUIRED_COLUMNS
      (mapColumn (mapColumn t "Date" fun v => PyVal.vStr (pyStr v)) "Mood"
        fun v => PyVal.vInt (toNumericFillZero v))
    rw [show (mapColumn (mapColumn t "Date" fun v => PyVal.vStr (pyStr v)) "Mood"
        fun v => PyVal.vInt (toNumericFillZero v)).rows =
      (t.rows.map dateFixRow).map moodFixRow from rfl, List.map_map,
      List.forall₂_map_left_iff] at hback
    simp only [Function.comp] at hback
    refine forall2_imp_left_mem hback ?_
    intro r1 hr1 r2 hpt
    constructor
    · have hl := hpt "Mood"
      rw [if_neg (by rintro ⟨_, hno, _⟩; exact hno hm)] at hl
      rw [getCell, hl, moodFixRow, lookup_setCell_self]
      have hsame : getCell (dateFixRow r1) "Mood" = getCell r1 "Mood" := by
        rw [getCell, getCell, dateFixRow, lookup_setCell_other _ _ _ _ (by decide)]
      rw [hsame]
      rfl
    · intro c hc hcnot
      have hcd : c ≠ "Date" := fun h => hcnot (h ▸ hd)
      have hcm : c ≠ "Mood" := fun h => hcnot (h ▸ hm)
      have hnone : List.lookup c r1 = none :=
        lookup_eq_none_of_not_mem r1 c fun p hp hpc => hcnot (hpc ▸ hwf r1 hr1 p hp)
      have h2 : List.lookup c (moodFixRow (dateFixRow r1)) = none := by
        rw [moodFixRow, lookup_setCell_other _ _ _ _ hcm, dateFixRow,
          lookup_setCell_other _ _ _ _ hcd, hnone]
      have hl := hpt c
      rw [if_pos ⟨hc, hcnot, h2⟩] at hl
      rw [getCell, hl]
      rfl

/-- Witness for the amended C6 at concrete inputs: a frame lacking `Mood`
degrades to the empty frame, and the one-row `Is_Active`-less frame is loaded
row-for-row with its mood coerced and the missing column holding the empty
string. -/
theorem C6_load_degrades_amended_witness :
    load_data (some (RawTable.mk ["Habit"] [])) = emptyTable ∧
    (load_data (some inactivelessTable)).rows.length = inactivelessTable.rows.length ∧
    List.Forall₂ (fun r1 r2 =>
        getCell r2 "Mood" = PyVal.vInt (toNumericFillZero (getCell r1 "Mood")) ∧
        ∀ c ∈ REQUIRED_COLUMNS, c ∉ inactivelessTable.cols → getCell r2 c = PyVal.vStr "")
      inactivelessTable.rows (load_data (some inactivelessTable)).rows :=
  ⟨(C6_load_degrades_amended (RawTable.mk ["Habit"] [])).2.2.2.1 (Or.inl (by decide)),
   (C6_load_degrades_amended inactivelessTable).2.2.2.2.2.1 (by decide) (by decide),
   (C6_load_degrades_amended inactivelessTable).2.2.2.2.2.2 (by decide) (by decide)
     (by decide)⟩

end Tracker
